import Mathlib

/-!
Formal model of the S3 communications module of the HDF5 repository
(`src/H5FDs3comms.c`): URL parsing, HTTP header-list maintenance, AWS
Signature Version 4 signing-key derivation, canonical-request
construction, and the ranged-read entry point of the reader handle.

C strings are modelled as Lean `String`s (the claims involve only byte
values that coincide with code points); 64-bit machine arithmetic is
modelled on `Nat` with explicit reduction modulo `2 ^ 64`.
-/

set_option linter.unusedVariables false

namespace S3Comms

/-- Width of `haddr_t` and `size_t` on the target platform: 2 ^ 64. -/
def W64 : Nat := 18446744073709551616

/-- ASCII lowercasing of one character, as C `tolower` in the default
locale (applied byte-wise in `H5FDs3comms.c`). -/
def s3_tolower (c : Char) : Char :=
  if 'A' ≤ c ∧ c ≤ 'Z' then Char.ofNat (c.toNat + 32) else c

/-- Lowercase an entire string, as the character loop of
`H5FD_s3comms_hrb_node_set` (`lowername[i] = tolower(name[i])`). -/
def lowerStr (s : String) : String := ⟨s.data.map s3_tolower⟩

/-! ### SHA-256 and HMAC-SHA256

The C code calls OpenSSL's `EVP_sha256` / `HMAC`.  They are modelled here
concretely: FIPS 180-4 SHA-256 over byte lists (`List Nat`, each entry a
byte value) and the RFC 2104 HMAC construction, as the specification
prescribes for the signer primitives. -/

/-- Truncation to a 32-bit word. -/
def w32 (n : Nat) : Nat := n % 4294967296

/-- Right rotation of a 32-bit word by `n` bits. -/
def rotr (n x : Nat) : Nat := (x >>> n) ||| w32 (x <<< (32 - n))

def shaCh (x y z : Nat) : Nat := (x &&& y) ^^^ ((x ^^^ 4294967295) &&& z)

def shaMaj (x y z : Nat) : Nat := (x &&& y) ^^^ (x &&& z) ^^^ (y &&& z)

def bsig0 (x : Nat) : Nat := rotr 2 x ^^^ rotr 13 x ^^^ rotr 22 x

def bsig1 (x : Nat) : Nat := rotr 6 x ^^^ rotr 11 x ^^^ rotr 25 x

def ssig0 (x : Nat) : Nat := rotr 7 x ^^^ rotr 18 x ^^^ (x >>> 3)

def ssig1 (x : Nat) : Nat := rotr 17 x ^^^ rotr 19 x ^^^ (x >>> 10)

/-- The 64 SHA-256 round constants (decimal renderings of the FIPS
180-4 words). -/
def shaK : List Nat :=
  [1116352408, 1899447441, 3049323471, 3921009573, 961987163,
   1508970993, 2453635748, 2870763221, 3624381080, 310598401,
   607225278, 1426881987, 1925078388, 2162078206, 2614888103,
   3248222580, 3835390401, 4022224774, 264347078, 604807628,
   770255983, 1249150122, 1555081692, 1996064986, 2554220882,
   2821834349, 2952996808, 3210313671, 3336571891, 3584528711,
   113926993, 338241895, 666307205, 773529912, 1294757372,
   1396182291, 1695183700, 1986661051, 2177026350, 2456956037,
   2730485921, 2820302411, 3259730800, 3345764771, 3516065817,
   3600352804, 4094571909, 275423344, 430227734, 506948616,
   659060556, 883997877, 958139571, 1322822218, 1537002063,
   1747873779, 1955562222, 2024104815, 2227730452, 2361852424,
   2428436474, 2756734187, 3204031479, 3329325298]

/-- SHA-256 initial hash state (decimal renderings). -/
def shaH0 : List Nat :=
  [1779033703, 3144134277, 1013904242, 2773480762, 1359893119,
   2600822924, 528734635, 1541459225]

/-- Big-endian 8-byte rendering of a 64-bit length field. -/
def be64 (n : Nat) : List Nat :=
  [(n >>> 56) % 256, (n >>> 48) % 256, (n >>> 40) % 256, (n >>> 32) % 256,
   (n >>> 24) % 256, (n >>> 16) % 256, (n >>> 8) % 256, n % 256]

/-- FIPS 180-4 message padding: append `0x80`, zeros to 56 mod 64, then
the bit length as 8 big-endian bytes. -/
def shaPad (m : List Nat) : List Nat :=
  m ++ 128 :: (List.replicate ((119 - m.length % 64) % 64) 0 ++ be64 (8 * m.length))

/-- Group bytes into big-endian 32-bit words. -/
def toWords : List Nat → List Nat
  | b0 :: b1 :: b2 :: b3 :: rest =>
      (((b0 % 256) <<< 24) + ((b1 % 256) <<< 16) + ((b2 % 256) <<< 8) + (b3 % 256))
        :: toWords rest
  | _ => []

/-- Split a byte list into 64-byte blocks (fuel-based so that kernel
reduction can evaluate it; the fuel `l.length` always suffices since each
step consumes at least one element of a nonempty list). -/
def chunk64Go : Nat → List Nat → List (List Nat)
  | 0, _ => []
  | _, [] => []
  | fuel + 1, l => l.take 64 :: chunk64Go fuel (l.drop 64)

/-- Split a padded message into 64-byte blocks. -/
def chunk64 (l : List Nat) : List (List Nat) := chunk64Go l.length l

/-- Extend the 16 message-schedule words by `k` further words. -/
def shaSched (ws : List Nat) : Nat → List Nat
  | 0 => ws
  | k + 1 =>
      let n := ws.length
      let nw := w32 (ssig1 (ws.getD (n - 2) 0) + ws.getD (n - 7) 0 +
                     ssig0 (ws.getD (n - 15) 0) + ws.getD (n - 16) 0)
      shaSched (ws ++ [nw]) k

/-- One SHA-256 compression round on the 8-word working state. -/
def shaRound (st : List Nat) (kw : Nat × Nat) : List Nat :=
  match st with
  | [a, b, c, d, e, f, g, h] =>
      let t1 := w32 (h + bsig1 e + shaCh e f g + kw.1 + kw.2)
      let t2 := w32 (bsig0 a + shaMaj a b c)
      [w32 (t1 + t2), a, b, c, w32 (d + t1), e, f, g]
  | _ => st

/-- Compress one 64-byte block into the running hash state. -/
def shaCompress (hs : List Nat) (block : List Nat) : List Nat :=
  let ws := shaSched (toWords block) 48
  let st := (shaK.zip ws).foldl shaRound hs
  (hs.zip st).map (fun p => w32 (p.1 + p.2))

/-- SHA-256 of a byte list, producing the 32 digest bytes. -/
def sha256 (msg : List Nat) : List Nat :=
  (((chunk64 (shaPad msg)).foldl shaCompress shaH0).map
    (fun w => [(w >>> 24) % 256, (w >>> 16) % 256, (w >>> 8) % 256, w % 256])).flatten

/-- RFC 2104 HMAC with SHA-256 (block size 64), the construction the C
code obtains from OpenSSL's `HMAC(EVP_sha256(), ...)`. -/
def hmac_sha256 (key msg : List Nat) : List Nat :=
  let k0 := if 64 < key.length then sha256 key else key
  let kp := k0 ++ List.replicate (64 - k0.length) 0
  sha256 ((kp.map (fun b => b ^^^ 92)) ++ sha256 ((kp.map (fun b => b ^^^ 54)) ++ msg))

/-- UTF-8/ASCII bytes of a Lean string literal (all strings in play are
ASCII, where code points and bytes coincide). -/
def strBytes (s : String) : List Nat := s.data.map Char.toNat

/-- AWS SigV4 signing key as computed by `H5FD_s3comms_signing_key`
(H5FDs3comms.c lines 2748-2836): four chained HMAC-SHA256 calls whose
first key is `"AWS4" ++ secret` and whose first message is the first 8
bytes of the ISO-8601 timestamp. -/
def H5FD_s3comms_signing_key (secret region iso8601now : List Nat) : List Nat :=
  let AWS4_secret := strBytes "AWS4" ++ secret
  let datekey := hmac_sha256 AWS4_secret (iso8601now.take 8)
  let dateregionkey := hmac_sha256 datekey region
  let dateregionservicekey := hmac_sha256 dateregionkey (strBytes "s3")
  hmac_sha256 dateregionservicekey (strBytes "aws4_request")

/-- Signing-key derivation chain exactly as the specification's section
4.3.4 words it: `kSecret = "AWS4" || secret`, `kDate = HMAC(kSecret,
YYYYMMDD)` with `YYYYMMDD` the first 8 characters of the timestamp,
`kRegion = HMAC(kDate, region)`, `kService = HMAC(kRegion, "s3")`,
`kSigning = HMAC(kService, "aws4_request")`. -/
def signingKeySpecChain (secret region iso8601now : List Nat) : List Nat :=
  let kSecret := strBytes "AWS4" ++ secret
  let kDate := hmac_sha256 kSecret (iso8601now.take 8)
  let kRegion := hmac_sha256 kDate region
  let kService := hmac_sha256 kRegion (strBytes "s3")
  hmac_sha256 kService (strBytes "aws4_request")

/-- Lowercase hexadecimal digit. -/
def hexDigitLower (n : Nat) : Char := "0123456789abcdef".data.getD n 'x'

/-- Lowercase hex string of a byte list (two digits per byte). -/
def bytesToHexLower (bs : List Nat) : String :=
  ⟨(bs.map (fun b => [hexDigitLower ((b / 16) % 16), hexDigitLower (b % 16)])).flatten⟩


/-! ### Header list (`hrb_node_t` and `H5FD_s3comms_hrb_node_set`)

A header list is a singly-linked list of nodes, each owning the
original-case name, the value, the lowercased name (sort key) and the
pre-joined `"name: value"` string.  The single mutator
`H5FD_s3comms_hrb_node_set` (H5FDs3comms.c lines 220-509) inserts,
replaces or removes; it is modelled in state-passing style: the result
pair is `(SUCCEED/FAIL as a Bool, the list after the call)`, and every
error path leaves the list exactly as the C leaves `*L`. -/

structure hrb_node_t where
  name : String
  value : String
  lowername : String
  cat : String
deriving DecidableEq, Repr

/-- C `strcmp(a, b) < 0` on character lists: compare position by
position, shorter-is-smaller at a common point of exhaustion. -/
def charsLt : List Char → List Char → Bool
  | [], [] => false
  | [], _ :: _ => true
  | _ :: _, [] => false
  | a :: as, b :: bs =>
      if a.toNat < b.toNat then true
      else if b.toNat < a.toNat then false
      else charsLt as bs

/-- C `strcmp(a, b) < 0` on strings. -/
def strLt (a b : String) : Bool := charsLt a.data b.data

/-- The `while (is_looking)` walk of `H5FD_s3comms_hrb_node_set`: `ptr`
is the node the cursor stands on, the list argument is `ptr->next`
onward.  Entered only with `ptr->lowername < lowername`.  Returns `none`
on the `HGOTO_ERROR` paths (removal of an absent node), otherwise the
replacement for the sub-list starting at `ptr`. -/
def nodeSetLoop (nm low : String) (value : Option String) :
    hrb_node_t → List hrb_node_t → Option (List hrb_node_t)
  | ptr, [] =>
      match value with
      | none => none
      | some v => some [ptr, ⟨nm, v, low, nm ++ ": " ++ v⟩]
  | ptr, next :: rest =>
      if strLt low next.lowername then
        match value with
        | none => none
        | some v => some (ptr :: ⟨nm, v, low, nm ++ ": " ++ v⟩ :: next :: rest)
      else if low = next.lowername then
        match value with
        | none => some (ptr :: rest)
        | some v => some (ptr :: ⟨nm, v, next.lowername, nm ++ ": " ++ v⟩ :: rest)
      else
        (nodeSetLoop nm low value next rest).map (ptr :: ·)

/-- `H5FD_s3comms_hrb_node_set(L, name, value)`.  `name = none` models a
NULL name pointer (rejected), `value = none` models a NULL value
(removal).  On `FAIL` the returned list is the untouched input, exactly
as the C error paths leave `*L`. -/
def H5FD_s3comms_hrb_node_set (L : List hrb_node_t)
    (name value : Option String) : Bool × List hrb_node_t :=
  match name with
  | none => (false, L)
  | some nm =>
    let low := lowerStr nm
    match L, value with
    | [], none => (false, L)
    | [], some v => (true, [⟨nm, v, low, nm ++ ": " ++ v⟩])
    | ptr :: rest, value =>
      if low = ptr.lowername then
        match value with
        | none => (true, rest)
        | some v => (true, ⟨nm, v, ptr.lowername, nm ++ ": " ++ v⟩ :: rest)
      else if strLt low ptr.lowername then
        match value with
        | none => (false, L)
        | some v => (true, ⟨nm, v, low, nm ++ ": " ++ v⟩ :: ptr :: rest)
      else
        match nodeSetLoop nm low value ptr rest with
        | none => (false, L)
        | some M => (true, M)

/-- Run a sequence of `hrb_node_set` operations, requiring every one of
them to return `SUCCEED` (the claims quantify over such sequences). -/
def runSets : List hrb_node_t → List (Option String × Option String) →
    Option (List hrb_node_t)
  | L, [] => some L
  | L, (n, v) :: ops =>
      match H5FD_s3comms_hrb_node_set L n v with
      | (true, M) => runSets M ops
      | (false, _) => none

/-- Per-node consistency: the stored sort key is the lowercased name and
the pre-joined string is `name ++ ": " ++ value`. -/
def nodeWF (n : hrb_node_t) : Prop :=
  n.lowername = lowerStr n.name ∧ n.cat = n.name ++ ": " ++ n.value

/-- The list is strictly ascending in the stored lowercased names under
the `strcmp` order. -/
def sortedNodes (L : List hrb_node_t) : Prop :=
  L.Chain' (fun a b => strLt a.lowername b.lowername = true)

/-! ### HTTP request record and the AWS canonical request -/

/-- The `hrb_t` HTTP request record (verb, resource path, version, header
list); the body fields are always empty in this driver and carry no
observable behaviour here. -/
structure hrb_t where
  verb : String
  resource : String
  version : String
  first_header : List hrb_node_t
deriving DecidableEq, Repr

/-- Modelled from the spec: the constant `EMPTY_SHA256` lives in the
repository header `H5FDs3comms.h`, which is not among the provided
sources; its value is the SHA-256 of the empty payload as stated in
specification sections 4.3.2 and 8 (scenario 3). -/
def EMPTY_SHA256 : String :=
  "e3b0c44298fc1c149afbf4c8996fb92427ae41e4649b934ca495991b7852b855"

/-- The header loop of `H5FD_s3comms_aws_canonical_request` (lines
1950-1977): per node, `strcat` of `lowername ++ ":" ++ value ++ "\n"`
onto the canonical request and of `lowername ++ ";"` onto the signed
headers. -/
def canonHeaderLoop : String → String → List hrb_node_t → String × String
  | creq, signed, [] => (creq, signed)
  | creq, signed, n :: rest =>
      canonHeaderLoop (creq ++ (n.lowername ++ ":" ++ n.value ++ "\n"))
        (signed ++ (n.lowername ++ ";")) rest

/-- The statement `signed_headers_dest[strlen(signed_headers_dest) - 1] =
0` (line 1981): drop the last character.  (On an empty string the C
underwrites the buffer; no claim touches that case.) -/
def stripLastChar (s : String) : String := ⟨s.data.dropLast⟩

/-- The signed-headers string as accumulated by the loop before the
trailing semicolon is stripped: `lowername ++ ";"` per node. -/
def signedRaw : List hrb_node_t → String
  | [] => ""
  | n :: rest => (n.lowername ++ ";") ++ signedRaw rest

/-- `H5FD_s3comms_aws_canonical_request` (lines 1887-1995): returns the
pair (canonical request, signed headers).  `query_params` is the constant
empty string in the source. -/
def H5FD_s3comms_aws_canonical_request (r : hrb_t) : String × String :=
  let query_params := ""
  let base := r.verb ++ "\n" ++ r.resource ++ "\n" ++ query_params ++ "\n"
  let cs := canonHeaderLoop base "" r.first_header
  let signed := stripLastChar cs.2
  (cs.1 ++ "\n" ++ signed ++ "\n" ++ EMPTY_SHA256, signed)

/-- C `isspace` in the default locale: space and the five control
whitespace characters 0x09-0x0D. -/
def isCSpace (c : Char) : Bool := c = ' ' ∨ (9 ≤ c.toNat ∧ c.toNat ≤ 13)

/-- `H5FD_s3comms_trim` (lines 3014-3072) as a string function: strip
leading and trailing C whitespace. -/
def trimStr (s : String) : String :=
  ⟨((s.data.dropWhile isCSpace).reverse.dropWhile isCSpace).reverse⟩

/-- Header lines of the canonical request as the specification words
them, one per node in list order. -/
def headerLinesSpec : List hrb_node_t → String
  | [] => ""
  | n :: rest => n.lowername ++ ":" ++ n.value ++ "\n" ++ headerLinesSpec rest

/-- Header lines as claim C4 words them, with the value *trimmed*. -/
def headerLinesTrimmed : List hrb_node_t → String
  | [] => ""
  | n :: rest => n.lowername ++ ":" ++ trimStr n.value ++ "\n" ++ headerLinesTrimmed rest

/-- Semicolon-joined list of strings (the `SignedHeaders` shape). -/
def semijoin : List String → String
  | [] => ""
  | [x] => x
  | x :: y :: rest => x ++ ";" ++ semijoin (y :: rest)

/-- The canonical request exactly as claim C4 states it: verb, resource
path, query params, header lines with *trimmed* values, blank line,
semicolon-joined lowercased names, empty-payload SHA-256 constant. -/
def canonicalRequestClaimed (r : hrb_t) : String :=
  r.verb ++ "\n" ++ r.resource ++ "\n" ++ "" ++ "\n" ++
    headerLinesTrimmed r.first_header ++ "\n" ++
    semijoin (r.first_header.map (fun n => n.lowername)) ++ "\n" ++ EMPTY_SHA256

/-- The canonical request in closed form with values emitted verbatim
(the corrected reading of claim C4). -/
def canonicalRequestVerbatim (r : hrb_t) : String :=
  r.verb ++ "\n" ++ r.resource ++ "\n" ++ "" ++ "\n" ++
    headerLinesSpec r.first_header ++ "\n" ++
    semijoin (r.first_header.map (fun n => n.lowername)) ++ "\n" ++ EMPTY_SHA256

/-- Number of newline characters in a string. -/
def countNL (s : String) : Nat := s.data.count (Char.ofNat 10)

/-- The final line of a string: everything after the last newline. -/
def lastLine (s : String) : String :=
  ⟨(s.data.reverse.takeWhile (fun c => c ≠ Char.ofNat 10)).reverse⟩

/-- Lowercase-hex digit test (the canonical request's final line is made
of these). -/
def isHexChar (c : Char) : Bool := c.isDigit ∨ ('a' ≤ c ∧ c ≤ 'f')

/-! ### URL parser (`H5FD_s3comms_parse_url`) -/

/-- Parsed URL record (`parsed_url_t`): scheme and host are required on
success, port/path/query are absent when not present in the input. -/
structure parsed_url_t where
  scheme : String
  host : String
  port : Option String
  path : Option String
  query : Option String
deriving DecidableEq, Repr

/-- Characters the scheme may contain (line 2364-2374): `isalpha`, `+`,
`-`, `.`. -/
def isSchemeChar (c : Char) : Bool := c.isAlpha ∨ c = '+' ∨ c = '-' ∨ c = '.'

/-- The HOST scan (lines 2396-2424).  A leading `[` takes everything up
to and including the first `]` (the C's end-of-string guard on this loop
tests the pointer, not the character, so a missing `]` makes the C scan
past the buffer; that unreachable-memory walk is modelled as failure).
Otherwise the host runs to the first `:`, `/`, `?` or end.  Returns the
host characters and the remainder. -/
def hostSplit (l : List Char) : Option (List Char × List Char) :=
  match l with
  | '[' :: _ =>
      let inside := l.takeWhile (fun c => c ≠ ']')
      if inside.length = l.length then none
      else some (l.take (inside.length + 1), l.drop (inside.length + 1))
  | _ =>
      let h := l.takeWhile (fun c => ¬(c = ':' ∨ c = '/' ∨ c = '?'))
      some (h, l.drop h.length)

/-- PORT element (lines 2440-2470): after `:`, digits up to `/`, `?` or
end; empty or non-digit fails.  Returns the port (if a `:` was present)
and the remainder. -/
def portSplit (l : List Char) : Option (Option (List Char) × List Char) :=
  match l with
  | ':' :: r =>
      let p := r.takeWhile (fun c => ¬(c = '/' ∨ c = '?'))
      if p.length = 0 then none
      else if ¬(p.all Char.isDigit) then none
      else some (some p, r.drop p.length)
  | _ => some (none, l)

/-- PATH element (lines 2476-2500): after `/`, everything up to `?` or
end; an empty path is stored as absent, not as an empty string. -/
def pathSplit (l : List Char) : Option (List Char) × List Char :=
  match l with
  | '/' :: r =>
      let p := r.takeWhile (fun c => c ≠ '?')
      (if p.length = 0 then none else some p, r.drop p.length)
  | _ => (none, l)

/-- The body of `H5FD_s3comms_parse_url` (lines 2311-2540) up to the
final store into `*_purl`: scheme up to the first `:` (no `:` at all
fails), scheme-character check, lowercasing, then `tmpstr += 3` — the
code skips the `:` plus two further characters without ever checking that
they are `//` — then host, port, path, query.  Characters left over after
the query phase are ignored, as in the C. -/
def parseUrlCore (str : String) : Option parsed_url_t :=
  let cs := str.data
  if cs.length = 0 then none
  else
    let scheme0 := cs.takeWhile (fun c => c ≠ ':')
    if scheme0.length = cs.length then none
    else if ¬(scheme0.all isSchemeChar) then none
    else
      let rest1 := cs.drop (scheme0.length + 3)
      match hostSplit rest1 with
      | none => none
      | some (host, rest2) =>
        if host.length = 0 then none
        else if cs.length < host.length then none
        else
          match portSplit rest2 with
          | none => none
          | some (port, rest3) =>
            if cs.length < (port.getD []).length then none
            else
              let pr := pathSplit rest3
              if cs.length < (pr.1.getD []).length then none
              else
                match pr.2 with
                | '?' :: q =>
                    if q.length = 0 then none
                    else if cs.length < q.length then none
                    else some ⟨⟨scheme0.map s3_tolower⟩, ⟨host⟩,
                               port.map (fun p => String.mk p),
                               pr.1.map (fun p => String.mk p), some ⟨q⟩⟩
                | _ => some ⟨⟨scheme0.map s3_tolower⟩, ⟨host⟩,
                             port.map (fun p => String.mk p),
                             pr.1.map (fun p => String.mk p), none⟩

/-- `H5FD_s3comms_parse_url(str, &purl)` with the out-parameter made
explicit: `slot` is the value `*_purl` holds before the call.  The C
writes `*_purl` at exactly one place, immediately before setting
`ret_value = SUCCEED`; every `HGOTO_ERROR` path jumps past it to `done`,
where only the locally built structure is released. -/
def H5FD_s3comms_parse_url (slot : Option parsed_url_t) (str : String) :
    Bool × Option parsed_url_t :=
  match parseUrlCore str with
  | none => (false, slot)
  | some purl => (true, some purl)

/-! ### Reader handle and `H5FD_s3comms_s3r_read` -/

/-- The reader handle `s3r_t`, with the fields `s3r_read` consults.
`curl_ok` stands for `handle->curlhandle != NULL`; option fields model
nullable pointers.  The 32-byte signing key is carried as bytes. -/
structure s3r_t where
  curl_ok : Bool
  purl : Option parsed_url_t
  filesize : Nat
  region : Option String
  secret_id : Option String
  signing_key : Option (List Nat)
  httpverb : Option String
deriving DecidableEq, Repr

/-- Observable outcome of one `s3r_read` call: either a failure before
any HTTP traffic (`HGOTO_ERROR` before `curl_easy_perform`), or an HTTP
request issued with the recorded `Range` string (`none` when no range was
formatted) and authentication mode. -/
inductive ReadOutcome where
  | fail : ReadOutcome
  | request : Option String → Bool → ReadOutcome
deriving DecidableEq, Repr

/-- The read-past-EOF precondition of `s3r_read` (line 1416):
`offset > handle->filesize || (len + offset) > handle->filesize`, the sum
taken in 64-bit machine arithmetic. -/
def readPastEof (filesize offset len : Nat) : Bool :=
  filesize < offset ∨ filesize < (len + offset) % W64

/-- The `FORMAT HTTP RANGE` block (lines 1452-1479): for `len > 0` the
string `bytes=OFFSET-OFFSET+LEN` (the `+` evaluated on 64-bit values, the
sum printed in decimal), for `len == 0 && offset > 0` the string
`bytes=OFFSET-`, otherwise no range string. -/
def rangeStr (offset len : Nat) : Option String :=
  if 0 < len then
    some ("bytes=" ++ Nat.repr offset ++ "-" ++ Nat.repr ((offset + len) % W64))
  else if 0 < offset then
    some ("bytes=" ++ Nat.repr offset ++ "-")
  else none

/-- `H5FD_s3comms_s3r_read(handle, offset, len, dest)` (lines 1365-1798)
up to `curl_easy_perform`: sanity checks, the EOF check, range
formatting, then either the anonymous path (range handed to
`CURLOPT_RANGE`) or the authenticated path (header list, canonical
request, signature).  `offset` and `len` are reduced to their 64-bit
machine values on entry; `dest` models a non-NULL destination buffer
(it only selects whether `CURLOPT_WRITEDATA` is set and does not change
the outcome shape). -/
def H5FD_s3comms_s3r_read (handle : s3r_t) (offset0 len0 : Nat)
    (dest : Bool) : ReadOutcome :=
  let offset := offset0 % W64
  let len := len0 % W64
  if handle.curl_ok = false then ReadOutcome.fail
  else
    match handle.purl with
    | none => ReadOutcome.fail
    | some purl =>
      if readPastEof handle.filesize offset len then ReadOutcome.fail
      else
        let range := rangeStr offset len
        match handle.signing_key with
        | none => ReadOutcome.request range false
        | some _ =>
            if handle.region = none ∨ handle.secret_id = none ∨
               handle.httpverb = none ∨ purl.path = none
            then ReadOutcome.fail
            else ReadOutcome.request range true


/-! ## Theorems -/

theorem sdata_append (a b : String) : (a ++ b).data = a.data ++ b.data := by
  cases a; cases b; rfl

theorem charsLt_irrefl : ∀ l : List Char, charsLt l l = false
  | [] => rfl
  | a :: as => by simp [charsLt, charsLt_irrefl as]

theorem charsLt_trans : ∀ a b c : List Char,
    charsLt a b = true → charsLt b c = true → charsLt a c = true := by
  intro a
  induction a with
  | nil =>
    intro b c hab hbc
    cases b with
    | nil => simp [charsLt] at hab
    | cons b bs =>
      cases c with
      | nil => simp [charsLt] at hbc
      | cons c cs => simp [charsLt]
  | cons a as ih =>
    intro b c hab hbc
    cases b with
    | nil => simp [charsLt] at hab
    | cons b bs =>
      cases c with
      | nil => simp [charsLt] at hbc
      | cons c cs =>
        simp only [charsLt] at hab hbc ⊢
        rcases Nat.lt_trichotomy a.toNat b.toNat with h1 | h1 | h1
        · rcases Nat.lt_trichotomy b.toNat c.toNat with h2 | h2 | h2
          · simp [Nat.lt_trans h1 h2]
          · simp [h2 ▸ h1]
          · simp [Nat.lt_asymm h2, h2] at hbc
        · rcases Nat.lt_trichotomy b.toNat c.toNat with h2 | h2 | h2
          · simp [h1 ▸ h2]
          · simp only [h1, h2, Nat.lt_irrefl, if_false] at hab hbc ⊢
            exact ih bs cs hab hbc
          · simp [Nat.lt_asymm h2, h2] at hbc
        · simp [Nat.lt_asymm h1, h1] at hab

theorem charsLt_eq_of_not_lt : ∀ a b : List Char,
    charsLt a b = false → charsLt b a = false → a = b := by
  intro a
  induction a with
  | nil =>
    intro b hab hba
    cases b with
    | nil => rfl
    | cons b bs => simp [charsLt] at hab
  | cons a as ih =>
    intro b hab hba
    cases b with
    | nil => simp [charsLt] at hba
    | cons b bs =>
      simp only [charsLt] at hab hba
      rcases Nat.lt_trichotomy a.toNat b.toNat with h1 | h1 | h1
      · simp [h1] at hab
      · have hc : a = b := Char.ext (UInt32.ext h1)
        subst hc
        simp only [Nat.lt_irrefl, if_false] at hab hba
        rw [ih bs hab hba]
      · simp [h1] at hba

theorem strLt_irrefl (a : String) : strLt a a = false := charsLt_irrefl a.data

theorem strLt_trans {a b c : String} (h1 : strLt a b = true)
    (h2 : strLt b c = true) : strLt a c = true :=
  charsLt_trans a.data b.data c.data h1 h2

theorem strLt_eq_of_not_lt {a b : String} (h1 : strLt a b = false)
    (h2 : strLt b a = false) : a = b :=
  String.ext (charsLt_eq_of_not_lt a.data b.data h1 h2)

theorem strLt_rev_of_ne {a b : String} (hne : a ≠ b)
    (h : strLt a b = false) : strLt b a = true := by
  cases hr : strLt b a with
  | true => rfl
  | false => exact absurd (strLt_eq_of_not_lt h hr) hne

theorem ne_of_strLt {a b : String} (h : strLt a b = true) : a ≠ b := by
  intro e
  rw [e, strLt_irrefl] at h
  exact Bool.false_ne_true h

/-- SHA-256 of the empty message is the constant the module bakes into
every request (`x-amz-content-sha256` and the canonical request tail). -/
theorem sha256_empty_eq_EMPTY_SHA256 : bytesToHexLower (sha256 []) = EMPTY_SHA256 := by decide

set_option maxRecDepth 4000 in
/-- The published AWS SigV4 example (secret
`wJalrXUtnFEMI/K7MDENG/bPxRfiCYEXAMPLEKEY`, region `us-east-1`, date
`20130524`, service `s3`) reproduces the documented signing key, checking
the SHA-256/HMAC model and the derivation chain on real data. -/
theorem signing_key_aws_example :
    bytesToHexLower (H5FD_s3comms_signing_key
      (strBytes "wJalrXUtnFEMI/K7MDENG/bPxRfiCYEXAMPLEKEY")
      (strBytes "us-east-1")
      (strBytes "20130524T000000Z")) =
    "dbb893acc010964918f1fd433add87c70e8b0db6be30c1fbeafefa5ec6ba8378" := by decide

/-- Claim C5: the 32-byte signing key computed from (secret, region,
iso8601 timestamp) equals the chain HMAC(HMAC(HMAC(HMAC("AWS4" ++
secret, first 8 characters of the timestamp), region), "s3"),
"aws4_request"), for every secret, region and timestamp. -/
theorem C5_signing_key (secret region iso8601now : List Nat) :
    H5FD_s3comms_signing_key secret region iso8601now =
      signingKeySpecChain secret region iso8601now := rfl

/-- Claim C9: whenever `H5FD_s3comms_parse_url` fails, the caller's
`*_purl` slot holds exactly the value it held before the call; the
result slot is written only on success. -/
theorem C9_purl_unmodified_on_failure (slot : Option parsed_url_t)
    (s : String) (h : (H5FD_s3comms_parse_url slot s).1 = false) :
    (H5FD_s3comms_parse_url slot s).2 = slot := by
  revert h
  unfold H5FD_s3comms_parse_url
  cases parseUrlCore s <;> simp

/-- Claim C9 witness: parsing `"http://"` fails (empty host) and leaves
a pre-loaded slot untouched. -/
theorem C9_witness :
    (H5FD_s3comms_parse_url (some ⟨"x", "y", none, none, none⟩) "http://").1 = false ∧
    (H5FD_s3comms_parse_url (some ⟨"x", "y", none, none, none⟩) "http://").2 =
      some ⟨"x", "y", none, none, none⟩ :=
  ⟨by decide, C9_purl_unmodified_on_failure (some ⟨"x", "y", none, none, none⟩) "http://" (by decide)⟩

/-- Claim C6 (amended): an input with no `:` at all makes
`H5FD_s3comms_parse_url` fail; the parser's actual check is `strchr(str,
':')`, and the three characters after the scheme are skipped without
being compared against `"://"`. -/
theorem C6_missing_colon_fails (s : String) (h : ∀ c ∈ s.data, c ≠ ':') :
    parseUrlCore s = none := by
  have hp : s.data.takeWhile (fun c => !decide (c = ':')) = s.data :=
    List.takeWhile_eq_self_iff.mpr (fun x hx => by simp [h x hx])
  simp [parseUrlCore, hp]

/-- Claim C6 witness: `"abc"` has no colon and fails to parse. -/
theorem C6_witness :
    (∀ c ∈ "abc".data, c ≠ ':') ∧ parseUrlCore "abc" = none :=
  ⟨by decide, C6_missing_colon_fails "abc" (by decide)⟩

/-- Claim C6 counterexample: in `"http:xhost"` the scheme `http` is not
followed by `"://"` (the three characters after it are `:xh`), yet the
parser succeeds, returning host `"ost"` — it skips three characters
after the colon without checking them. -/
theorem C6_counterexample :
    parseUrlCore "http:xhost" = some ⟨"http", "ost", none, none, none⟩ ∧
    ("http:xhost".data.drop 4).take 3 ≠ [':', '/', '/'] := by decide


theorem s3r_read_request_range (h : s3r_t) (o l : Nat) (d : Bool)
    (r : Option String) (a : Bool)
    (hreq : H5FD_s3comms_s3r_read h o l d = ReadOutcome.request r a) :
    r = rangeStr (o % W64) (l % W64) := by
  unfold H5FD_s3comms_s3r_read at hreq
  by_cases hc : h.curl_ok = false
  · simp [hc] at hreq
  · cases hp : h.purl with
    | none => simp [hc, hp] at hreq
    | some p =>
      cases hpe : readPastEof h.filesize (o % W64) (l % W64) with
      | true => simp [hc, hp, hpe] at hreq
      | false =>
        cases hk : h.signing_key with
        | none =>
          simp [hc, hp, hpe, hk] at hreq
          exact hreq.1.symm
        | some k =>
          by_cases hj : h.region = none ∨ h.secret_id = none ∨
              h.httpverb = none ∨ p.path = none
          · simp [hc, hp, hpe, hk, hj] at hreq
          · simp [hc, hp, hpe, hk, hj] at hreq
            exact hreq.1.symm

/-- Claim C1 (amended): with the sum `offset + len` taken in 64-bit
machine arithmetic — as the C expression `(len + offset)` on `haddr_t`
evaluates it — a read whose window fails the check `offset > filesize ||
(len + offset) > filesize` returns `FAIL` before any HTTP request is
issued; in particular `read(offset=95, len=10)` on `filesize == 100`
fails.  (Without the reduction mod `2^64` the claim fails; see the
counterexample.) -/
theorem C1_read_past_eof (h : s3r_t) (o l : Nat) (d : Bool)
    (ho : o < W64) (hl : l < W64)
    (hpast : h.filesize < o ∨ h.filesize < (o + l) % W64) :
    H5FD_s3comms_s3r_read h o l d = ReadOutcome.fail := by
  have hr : readPastEof h.filesize o l = true := by
    unfold readPastEof
    rw [decide_eq_true_eq, Nat.add_comm l o]
    exact hpast
  unfold H5FD_s3comms_s3r_read
  simp only [Nat.mod_eq_of_lt ho, Nat.mod_eq_of_lt hl]
  by_cases hc : h.curl_ok = false
  · simp [hc]
  · cases h.purl <;> simp [hc, hr]

/-- Claim C1 witness: on a handle with `filesize == 100`,
`read(offset=95, len=10)` fails. -/
theorem C1_witness :
    (95 < W64 ∧ 10 < W64 ∧
      ((100 : Nat) < 95 ∨ (100 : Nat) < (95 + 10) % W64)) ∧
    H5FD_s3comms_s3r_read
      ⟨true, some ⟨"https", "h", none, some "f", none⟩, 100, none, none, none, none⟩
      95 10 true = ReadOutcome.fail :=
  ⟨⟨by decide, by decide, by decide⟩,
   C1_read_past_eof
     ⟨true, some ⟨"https", "h", none, some "f", none⟩, 100, none, none, none, none⟩
     95 10 true (by decide) (by decide) (by decide)⟩

/-- Claim C1 counterexample: on a handle with `filesize == 100`, the
call `read(offset=100, len=2^64 - 50)` satisfies `offset + len >
filesize` as integers, yet the 64-bit sum wraps to `50 ≤ 100`, the check
passes, and the code goes on to issue an HTTP request (with range string
`bytes=100-50`). -/
theorem C1_counterexample :
    100 + (W64 - 50) > 100 ∧
    H5FD_s3comms_s3r_read
      ⟨true, some ⟨"https", "h", none, some "f", none⟩, 100, none, none, none, none⟩
      100 (W64 - 50) true ≠ ReadOutcome.fail := by
  constructor
  · decide
  · intro hcon
    exact absurd ((by decide :
      H5FD_s3comms_s3r_read
        ⟨true, some ⟨"https", "h", none, some "f", none⟩, 100, none, none, none, none⟩
        100 (W64 - 50) true = ReadOutcome.request (some "bytes=100-50") false) ▸ hcon)
      (by simp)

/-- Claim C2 (amended): whenever a read issues a request, the `Range`
string is `bytes=OFFSET-UPPER` with `UPPER` the 64-bit machine value of
`offset + len` when `len > 0`, and `bytes=OFFSET-` when `len == 0 <
offset`.  (With the mathematical sum in the upper bound the claim fails;
see the counterexample.) -/
theorem C2_range_header (h : s3r_t) (o l : Nat) (d : Bool)
    (r : Option String) (a : Bool) (ho : o < W64) (hl : l < W64)
    (hreq : H5FD_s3comms_s3r_read h o l d = ReadOutcome.request r a) :
    (0 < l → r = some ("bytes=" ++ Nat.repr o ++ "-" ++ Nat.repr ((o + l) % W64))) ∧
    (l = 0 → 0 < o → r = some ("bytes=" ++ Nat.repr o ++ "-")) := by
  have hr : r = rangeStr o l := by
    have := s3r_read_request_range h o l d r a hreq
    rwa [Nat.mod_eq_of_lt ho, Nat.mod_eq_of_lt hl] at this
  subst hr
  constructor
  · intro hl0
    simp [rangeStr, hl0]
  · intro hl0 ho0
    simp [rangeStr, hl0, ho0]

/-- Claim C2 witness: `read(offset=10, len=5)` on a 100-byte anonymous
handle produces `Range: bytes=10-15` (upper bound `offset + len`), and a
`len == 0, offset == 7` read produces `bytes=7-`. -/
theorem C2_witness :
    ((10 : Nat) < W64 ∧ (5 : Nat) < W64 ∧
      H5FD_s3comms_s3r_read
        ⟨true, some ⟨"https", "h", none, some "f", none⟩, 100, none, none, none, none⟩
        10 5 true = ReadOutcome.request (some "bytes=10-15") false) ∧
    ((0 < (5 : Nat) →
        (some "bytes=10-15" : Option String) =
          some ("bytes=" ++ Nat.repr 10 ++ "-" ++ Nat.repr ((10 + 5) % W64))) ∧
      ((5 : Nat) = 0 → 0 < (10 : Nat) →
        (some "bytes=10-15" : Option String) = some ("bytes=" ++ Nat.repr 10 ++ "-"))) :=
  ⟨⟨by decide, by decide, by decide⟩,
   C2_range_header
     ⟨true, some ⟨"https", "h", none, some "f", none⟩, 100, none, none, none, none⟩
     10 5 true (some "bytes=10-15") false (by decide) (by decide) (by decide)⟩

/-- Claim C2 counterexample: at `offset = 100`, `len = 2^64 - 50` the
emitted range string is `bytes=100-50` (the 64-bit wrap of `offset +
len`), not `bytes=100-` followed by the decimal of the mathematical sum
`2^64 + 50`. -/
theorem C2_counterexample :
    H5FD_s3comms_s3r_read
      ⟨true, some ⟨"https", "h", none, some "f", none⟩, 100, none, none, none, none⟩
      100 (W64 - 50) true = ReadOutcome.request (some "bytes=100-50") false ∧
    "bytes=100-50" ≠ "bytes=" ++ Nat.repr 100 ++ "-" ++ Nat.repr (100 + (W64 - 50)) := by
  constructor
  · decide
  · decide

/-- Claim C10: the read-past-EOF check rejects only strictly greater
offsets: `read(handle, offset = filesize, len = 0)` passes the check and
proceeds to issue the HTTP request (with `Range: bytes=FILESIZE-` when
the file size is positive). -/
theorem C10_eof_check_boundary (h : s3r_t) (p : parsed_url_t) (d : Bool)
    (hc : h.curl_ok = true) (hp : h.purl = some p) (hf : h.filesize < W64)
    (hauth : h.signing_key = none ∨
      (h.region ≠ none ∧ h.secret_id ≠ none ∧ h.httpverb ≠ none ∧ p.path ≠ none)) :
    readPastEof h.filesize h.filesize 0 = false ∧
    H5FD_s3comms_s3r_read h h.filesize 0 d =
      ReadOutcome.request (rangeStr h.filesize 0) h.signing_key.isSome := by
  have hre : readPastEof h.filesize h.filesize 0 = false := by
    simp [readPastEof, Nat.mod_eq_of_lt hf]
  refine ⟨hre, ?_⟩
  unfold H5FD_s3comms_s3r_read
  rw [hp]
  simp only [Nat.mod_eq_of_lt hf, Nat.zero_mod, hc]
  rcases hauth with hk | ⟨h1, h2, h3, h4⟩
  · simp [hk, hre]
  · cases hk : h.signing_key with
    | none => simp [hre]
    | some k => simp [hre, h1, h2, h3, h4]

/-- Claim C10 witness: an anonymous handle with `filesize == 100`
accepts `read(offset=100, len=0)` and issues the request
`Range: bytes=100-`. -/
theorem C10_witness :
    readPastEof 100 100 0 = false ∧
    H5FD_s3comms_s3r_read
      ⟨true, some ⟨"https", "h", none, some "f", none⟩, 100, none, none, none, none⟩
      100 0 true =
      ReadOutcome.request (rangeStr 100 0) (none : Option (List Nat)).isSome :=
  C10_eof_check_boundary
    ⟨true, some ⟨"https", "h", none, some "f", none⟩, 100, none, none, none, none⟩
    ⟨"https", "h", none, some "f", none⟩ true rfl rfl (by decide) (Or.inl rfl)


theorem sapp_assoc (a b c : String) : (a ++ b) ++ c = a ++ (b ++ c) :=
  String.ext (by simp [sdata_append])

theorem sapp_empty (a : String) : a ++ "" = a :=
  String.ext (by simp [sdata_append])

theorem canonHeaderLoop_fst : ∀ (l : List hrb_node_t) (creq signed : String),
    (canonHeaderLoop creq signed l).1 = creq ++ headerLinesSpec l
  | [], creq, signed => by
      simp [canonHeaderLoop, headerLinesSpec, sapp_empty]
  | n :: rest, creq, signed => by
      show (canonHeaderLoop (creq ++ (n.lowername ++ ":" ++ n.value ++ "\n"))
              (signed ++ (n.lowername ++ ";")) rest).1 = _
      rw [canonHeaderLoop_fst rest]
      show _ = creq ++ (n.lowername ++ ":" ++ n.value ++ "\n" ++ headerLinesSpec rest)
      apply String.ext
      simp [sdata_append]

theorem canonHeaderLoop_snd : ∀ (l : List hrb_node_t) (creq signed : String),
    (canonHeaderLoop creq signed l).2 = signed ++ signedRaw l
  | [], creq, signed => by
      simp [canonHeaderLoop, signedRaw, sapp_empty]
  | n :: rest, creq, signed => by
      show (canonHeaderLoop (creq ++ (n.lowername ++ ":" ++ n.value ++ "\n"))
              (signed ++ (n.lowername ++ ";")) rest).2 = _
      rw [canonHeaderLoop_snd rest]
      show _ = signed ++ ((n.lowername ++ ";") ++ signedRaw rest)
      apply String.ext
      simp [sdata_append]

theorem signedRaw_data_ne_nil (n : hrb_node_t) (rest : List hrb_node_t) :
    (signedRaw (n :: rest)).data ≠ [] := by
  intro hcon
  simp only [signedRaw, sdata_append, List.append_eq_nil] at hcon
  exact absurd hcon.1.2 (by decide)

theorem stripLast_signedRaw : ∀ l : List hrb_node_t, l ≠ [] →
    stripLastChar (signedRaw l) = semijoin (l.map fun n => n.lowername)
  | [n], _ => by
      apply String.ext
      show ((n.lowername ++ ";") ++ signedRaw []).data.dropLast = _
      simp [signedRaw, semijoin, sdata_append, List.dropLast_concat,
        (by rfl : (";" : String).data = [';'])]
  | n :: m :: rest, _ => by
      apply String.ext
      show ((n.lowername ++ ";") ++ signedRaw (m :: rest)).data.dropLast = _
      rw [sdata_append, List.dropLast_append_of_ne_nil _ (signedRaw_data_ne_nil m rest)]
      have hdl : (signedRaw (m :: rest)).data.dropLast =
          (semijoin ((m :: rest).map fun n => n.lowername)).data := by
        have hih := congrArg String.data (stripLast_signedRaw (m :: rest) (by simp))
        simpa [stripLastChar] using hih
      rw [hdl]
      show _ = (n.lowername ++ ";" ++ semijoin ((m :: rest).map fun n => n.lowername)).data
      simp [sdata_append]

theorem aws_canonical_request_closed (r : hrb_t) (h : r.first_header ≠ []) :
    H5FD_s3comms_aws_canonical_request r =
      (canonicalRequestVerbatim r,
       semijoin (r.first_header.map fun n => n.lowername)) := by
  simp only [H5FD_s3comms_aws_canonical_request, canonHeaderLoop_fst, canonHeaderLoop_snd]
  have hemp : ("" : String) ++ signedRaw r.first_header = signedRaw r.first_header :=
    String.ext (by simp [sdata_append])
  rw [hemp, stripLast_signedRaw _ h]
  refine Prod.ext ?_ rfl
  show _ = canonicalRequestVerbatim r
  apply String.ext
  simp [canonicalRequestVerbatim, sdata_append]

/-- Claim C4 (amended): the canonical request is verb, resource path,
query-params slot, then per header (in list order)
`lowername ++ ":" ++ value ++ "\n"` with the value emitted
*verbatim* — the source never trims it — then a blank line, the
semicolon-joined lowercased names, and the empty-payload SHA-256
constant; the concurrently produced SignedHeaders string is that
semicolon-joined list. -/
theorem C4_canonical_request (r : hrb_t) (h : r.first_header ≠ []) :
    H5FD_s3comms_aws_canonical_request r =
      (canonicalRequestVerbatim r,
       semijoin (r.first_header.map fun n => n.lowername)) :=
  aws_canonical_request_closed r h

/-- Claim C4 witness: a one-header GET request assembles exactly the
verbatim canonical request and signed-headers pair. -/
theorem C4_witness :
    (⟨"GET", "/a.txt", "HTTP/1.1", [⟨"Host", "h.example", "host", "Host: h.example"⟩]⟩ :
        hrb_t).first_header ≠ [] ∧
    H5FD_s3comms_aws_canonical_request
        ⟨"GET", "/a.txt", "HTTP/1.1", [⟨"Host", "h.example", "host", "Host: h.example"⟩]⟩ =
      (canonicalRequestVerbatim
        ⟨"GET", "/a.txt", "HTTP/1.1", [⟨"Host", "h.example", "host", "Host: h.example"⟩]⟩,
       semijoin (([⟨"Host", "h.example", "host", "Host: h.example"⟩] :
          List hrb_node_t).map fun n => n.lowername)) :=
  ⟨by decide,
   C4_canonical_request
     ⟨"GET", "/a.txt", "HTTP/1.1", [⟨"Host", "h.example", "host", "Host: h.example"⟩]⟩
     (by decide)⟩

/-- Claim C4 counterexample: with a header whose value carries
surrounding whitespace (`Range: " h "`), the produced canonical request
differs from the claimed form with the trimmed value: the code emits
`host: h \n`, the claim says `host:h\n`. -/
theorem C4_counterexample :
    (H5FD_s3comms_aws_canonical_request
        ⟨"GET", "/x", "HTTP/1.1", [⟨"Host", " h ", "host", "Host:  h "⟩]⟩).1 ≠
      canonicalRequestClaimed
        ⟨"GET", "/x", "HTTP/1.1", [⟨"Host", " h ", "host", "Host:  h "⟩]⟩ := by decide

theorem countNL_append (a b : String) :
    countNL (a ++ b) = countNL a + countNL b := by
  simp [countNL, sdata_append, List.count_append]

theorem countNL_headerLinesSpec : ∀ l : List hrb_node_t,
    (∀ n ∈ l, countNL n.lowername = 0 ∧ countNL n.value = 0) →
    countNL (headerLinesSpec l) = l.length
  | [], _ => by simp [headerLinesSpec, countNL]
  | n :: rest, hf => by
      have hn := hf n (by simp)
      have ih := countNL_headerLinesSpec rest (fun m hm => hf m (by simp [hm]))
      simp only [headerLinesSpec, countNL_append, hn.1, hn.2, ih,
        (by decide : countNL ":" = 0), (by decide : countNL "\n" = 1), List.length_cons]
      omega

theorem countNL_semijoin : ∀ l : List String,
    (∀ s ∈ l, countNL s = 0) → countNL (semijoin l) = 0
  | [], _ => by simp [semijoin, countNL]
  | [x], hf => by simpa [semijoin] using hf x (by simp)
  | x :: y :: rest, hf => by
      have ih := countNL_semijoin (y :: rest) (fun s hs => hf s (List.mem_cons_of_mem x hs))
      simp [semijoin, countNL_append, hf x (by simp), ih,
        (by decide : countNL ";" = 0)]

theorem takeWhile_append_cons {p : Char → Bool} : ∀ (l1 : List Char) (c : Char)
    (l2 : List Char), (∀ x ∈ l1, p x = true) → p c = false →
    (l1 ++ c :: l2).takeWhile p = l1
  | [], c, l2, _, hc => by simp [List.takeWhile_cons, hc]
  | x :: l1, c, l2, hall, hc => by
      have hx := hall x (by simp)
      simp [List.takeWhile_cons, hx,
        takeWhile_append_cons l1 c l2 (fun y hy => hall y (by simp [hy])) hc]

theorem lastLine_append (a e : String) (he : countNL e = 0) :
    lastLine ((a ++ "\n") ++ e) = e := by
  have hmem : ∀ x ∈ e.data.reverse, (fun c => decide (c ≠ Char.ofNat 10)) x = true := by
    intro x hx
    have hnot : Char.ofNat 10 ∉ e.data := List.count_eq_zero.mp he
    have hxe : x ∈ e.data := List.mem_reverse.mp hx
    simp only [decide_eq_true_eq]
    intro hcon
    exact hnot (hcon ▸ hxe)
  apply String.ext
  show (((a ++ "\n") ++ e).data.reverse.takeWhile _).reverse = e.data
  rw [sdata_append, sdata_append, (by rfl : ("\n" : String).data = [Char.ofNat 10]),
    List.reverse_append, List.reverse_append]
  simp only [List.reverse_cons, List.reverse_nil, List.nil_append, List.cons_append]
  rw [takeWhile_append_cons e.data.reverse (Char.ofNat 10) a.data.reverse hmem (by simp)]
  simp

/-- Claim C8 (amended): a canonical request built from a nonempty header
list whose verb, resource and header fields contain no newline holds
exactly `n + 5` newline separators, where `n` is the number of headers —
six exactly when there is one header — and its final line is the 64
lowercase-hex characters of the empty-payload SHA-256. -/
theorem C8_canonical_shape (r : hrb_t) (h : r.first_header ≠ [])
    (hv : countNL r.verb = 0) (hres : countNL r.resource = 0)
    (hh : ∀ n ∈ r.first_header, countNL n.lowername = 0 ∧ countNL n.value = 0) :
    countNL (H5FD_s3comms_aws_canonical_request r).1 = r.first_header.length + 5 ∧
    (lastLine (H5FD_s3comms_aws_canonical_request r).1).length = 64 ∧
    (lastLine (H5FD_s3comms_aws_canonical_request r).1).data.all isHexChar = true := by
  have hcl := aws_canonical_request_closed r h
  have h1 : (H5FD_s3comms_aws_canonical_request r).1 = canonicalRequestVerbatim r := by
    rw [hcl]
  rw [h1]
  have hsj : countNL (semijoin (r.first_header.map fun n => n.lowername)) = 0 := by
    refine countNL_semijoin _ (fun s hs => ?_)
    rcases List.mem_map.mp hs with ⟨n, hn, rfl⟩
    exact (hh n hn).1
  refine ⟨?_, ?_, ?_⟩
  · simp only [canonicalRequestVerbatim, countNL_append, hv, hres, hsj,
      countNL_headerLinesSpec _ hh, (by decide : countNL "\n" = 1),
      (by decide : countNL "" = 0), (by decide : countNL EMPTY_SHA256 = 0)]
    omega
  · rw [canonicalRequestVerbatim,
      lastLine_append _ _ (by decide : countNL EMPTY_SHA256 = 0)]
    decide
  · rw [canonicalRequestVerbatim,
      lastLine_append _ _ (by decide : countNL EMPTY_SHA256 = 0)]
    decide

/-- Claim C8 witness: the one-header request has exactly six newlines
and a 64-character lowercase-hex final line. -/
theorem C8_witness :
    ((⟨"GET", "/y", "HTTP/1.1", [⟨"Host", "h2.example", "host", "Host: h2.example"⟩]⟩ :
        hrb_t).first_header ≠ [] ∧
      countNL "GET" = 0 ∧ countNL "/y" = 0 ∧
      (∀ n ∈ ([⟨"Host", "h2.example", "host", "Host: h2.example"⟩] : List hrb_node_t),
        countNL n.lowername = 0 ∧ countNL n.value = 0)) ∧
    (countNL (H5FD_s3comms_aws_canonical_request
        ⟨"GET", "/y", "HTTP/1.1", [⟨"Host", "h2.example", "host", "Host: h2.example"⟩]⟩).1 =
      ([⟨"Host", "h2.example", "host", "Host: h2.example"⟩] : List hrb_node_t).length + 5 ∧
     (lastLine (H5FD_s3comms_aws_canonical_request
        ⟨"GET", "/y", "HTTP/1.1", [⟨"Host", "h2.example", "host", "Host: h2.example"⟩]⟩).1).length = 64 ∧
     (lastLine (H5FD_s3comms_aws_canonical_request
        ⟨"GET", "/y", "HTTP/1.1", [⟨"Host", "h2.example", "host", "Host: h2.example"⟩]⟩).1).data.all
        isHexChar = true) :=
  ⟨⟨by decide, by decide, by decide, by decide⟩,
   C8_canonical_shape
     ⟨"GET", "/y", "HTTP/1.1", [⟨"Host", "h2.example", "host", "Host: h2.example"⟩]⟩
     (by decide) (by decide) (by decide) (by decide)⟩

/-- Claim C8 counterexample: a perfectly well-formed two-header request
(sorted names, no embedded newlines) produces seven `\n` separators, not
six: the count is `n + 5`, not a constant. -/
theorem C8_counterexample :
    countNL (H5FD_s3comms_aws_canonical_request
      ⟨"GET", "/z", "HTTP/1.1",
        [⟨"Host", "h.example", "host", "Host: h.example"⟩,
         ⟨"x-amz-date", "20130524T000000Z", "x-amz-date",
          "x-amz-date: 20130524T000000Z"⟩]⟩).1 = 7 ∧
    countNL (H5FD_s3comms_aws_canonical_request
      ⟨"GET", "/z", "HTTP/1.1",
        [⟨"Host", "h.example", "host", "Host: h.example"⟩,
         ⟨"x-amz-date", "20130524T000000Z", "x-amz-date",
          "x-amz-date: 20130524T000000Z"⟩]⟩).1 ≠ 6 := by
  constructor
  · decide
  · decide


theorem chain'_strLt_all : ∀ (rest : List String) (x y : String),
    (x :: rest).Chain' (fun a b => strLt a b = true) → y ∈ rest → strLt x y = true
  | [], x, y, h, hy => absurd hy (by simp)
  | z :: rest, x, y, h, hy => by
      rcases List.chain'_cons.mp h with ⟨hxz, hrest⟩
      rcases List.mem_cons.mp hy with hz | hy'
      · exact hz ▸ hxz
      · exact strLt_trans hxz (chain'_strLt_all rest z y hrest hy')

theorem chain'_pairwise_strLt : ∀ l : List String,
    l.Chain' (fun a b => strLt a b = true) →
    l.Pairwise (fun a b => strLt a b = true)
  | [], _ => List.Pairwise.nil
  | x :: rest, h => by
      rcases List.chain'_cons'.mp h with ⟨_, hrest⟩
      exact List.Pairwise.cons (fun y hy => chain'_strLt_all rest x y h hy)
        (chain'_pairwise_strLt rest hrest)

theorem nodeSetLoop_wf (nm low : String) (value : Option String)
    (hlow : low = lowerStr nm) :
    ∀ (rest : List hrb_node_t) (ptr : hrb_node_t) (M : List hrb_node_t),
      nodeSetLoop nm low value ptr rest = some M →
      (∀ n ∈ ptr :: rest, nodeWF n) →
      sortedNodes (ptr :: rest) →
      strLt ptr.lowername low = true →
      (∀ n ∈ M, nodeWF n) ∧ sortedNodes M ∧ ∃ M0, M = ptr :: M0 := by
  intro rest
  induction rest with
  | nil =>
    intro ptr M hM hwf hsort hlt
    cases value with
    | none => simp [nodeSetLoop] at hM
    | some v =>
      simp only [nodeSetLoop, Option.some.injEq] at hM
      subst hM
      refine ⟨?_, ?_, ⟨[⟨nm, v, low, nm ++ ": " ++ v⟩], rfl⟩⟩
      · intro n hn
        rcases List.mem_cons.mp hn with h | h
        · exact h ▸ hwf ptr (by simp)
        · rcases List.mem_singleton.mp h with rfl
          exact ⟨hlow, rfl⟩
      · exact List.chain'_cons.mpr ⟨hlt, List.chain'_singleton _⟩
  | cons next rest ih =>
    intro ptr M hM hwf hsort hlt
    rcases List.chain'_cons.mp hsort with ⟨hpn, hsort'⟩
    by_cases h1 : strLt low next.lowername = true
    · cases value with
      | none => simp [nodeSetLoop, h1] at hM
      | some v =>
        simp only [nodeSetLoop, h1, if_true, Option.some.injEq] at hM
        subst hM
        refine ⟨?_, ?_, ⟨_, rfl⟩⟩
        · intro n hn
          rcases List.mem_cons.mp hn with h | hn
          · exact h ▸ hwf ptr (by simp)
          · rcases List.mem_cons.mp hn with h | hn
            · exact h ▸ ⟨hlow, rfl⟩
            · exact hwf n (by simp [hn])
        · exact List.chain'_cons.mpr ⟨hlt, List.chain'_cons.mpr ⟨h1, hsort'⟩⟩
    · by_cases h2 : low = next.lowername
      · cases value with
        | none =>
          simp only [nodeSetLoop] at hM
          rw [if_neg h1, if_pos h2] at hM
          simp only [Option.some.injEq] at hM
          subst hM
          rcases List.chain'_cons'.mp hsort' with ⟨hnexthead, hrest⟩
          refine ⟨fun n hn => ?_, ?_, ⟨_, rfl⟩⟩
          · rcases List.mem_cons.mp hn with h | hn
            · exact h ▸ hwf ptr (by simp)
            · exact hwf n (by simp [hn])
          · exact List.chain'_cons'.mpr
              ⟨fun y hy => strLt_trans hpn (hnexthead y hy), hrest⟩
        | some v =>
          simp only [nodeSetLoop] at hM
          rw [if_neg h1, if_pos h2] at hM
          simp only [Option.some.injEq] at hM
          subst hM
          rcases List.chain'_cons'.mp hsort' with ⟨hnexthead, hrest⟩
          refine ⟨fun n hn => ?_, ?_, ⟨_, rfl⟩⟩
          · rcases List.mem_cons.mp hn with h | hn
            · exact h ▸ hwf ptr (by simp)
            · rcases List.mem_cons.mp hn with h | hn
              · subst h
                refine ⟨?_, rfl⟩
                show next.lowername = lowerStr nm
                rw [← h2, hlow]
              · exact hwf n (by simp [hn])
          · refine List.chain'_cons.mpr ⟨hpn, ?_⟩
            exact List.chain'_cons'.mpr ⟨fun y hy => hnexthead y hy, hrest⟩
      · have h1' : strLt low next.lowername = false := (Bool.not_eq_true _).mp h1
        have hnl : strLt next.lowername low = true := strLt_rev_of_ne h2 h1'
        simp only [nodeSetLoop] at hM
        rw [if_neg h1, if_neg h2] at hM
        rcases Option.map_eq_some'.mp hM with ⟨M', hM', hMM⟩
        have hres := ih next M' hM'
          (fun n hn => hwf n (List.mem_cons_of_mem ptr hn))
          hsort' hnl
        rcases hres with ⟨hwfM', hsortM', ⟨M0, hM0⟩⟩
        subst hMM
        refine ⟨fun n hn => ?_, ?_, ⟨_, rfl⟩⟩
        · rcases List.mem_cons.mp hn with h | hn
          · exact h ▸ hwf ptr (by simp)
          · exact hwfM' n hn
        · subst hM0
          exact List.chain'_cons.mpr ⟨hpn, hsortM'⟩

theorem hrb_node_set_wf (L : List hrb_node_t) (name value : Option String)
    (L' : List hrb_node_t)
    (hset : H5FD_s3comms_hrb_node_set L name value = (true, L'))
    (hwf : ∀ n ∈ L, nodeWF n) (hsort : sortedNodes L) :
    (∀ n ∈ L', nodeWF n) ∧ sortedNodes L' := by
  cases name with
  | none => simp [H5FD_s3comms_hrb_node_set] at hset
  | some nm =>
    cases L with
    | nil =>
      cases value with
      | none => simp [H5FD_s3comms_hrb_node_set] at hset
      | some v =>
        simp only [H5FD_s3comms_hrb_node_set, Prod.mk.injEq, true_and] at hset
        subst hset
        refine ⟨fun n hn => ?_, List.chain'_singleton _⟩
        rcases List.mem_singleton.mp hn with rfl
        exact ⟨rfl, rfl⟩
    | cons ptr rest =>
      rcases List.chain'_cons'.mp hsort with ⟨hhead, hrest⟩
      by_cases he : lowerStr nm = ptr.lowername
      · cases value with
        | none =>
          simp only [H5FD_s3comms_hrb_node_set, he, if_true, Prod.mk.injEq,
            true_and] at hset
          subst hset
          exact ⟨fun n hn => hwf n (by simp [hn]), hrest⟩
        | some v =>
          simp only [H5FD_s3comms_hrb_node_set, he, if_true, Prod.mk.injEq,
            true_and] at hset
          subst hset
          refine ⟨fun n hn => ?_, ?_⟩
          · rcases List.mem_cons.mp hn with h | hn
            · subst h
              exact ⟨he.symm, rfl⟩
            · exact hwf n (by simp [hn])
          · exact List.chain'_cons'.mpr ⟨fun y hy => hhead y hy, hrest⟩
      · by_cases hlt : strLt (lowerStr nm) ptr.lowername = true
        · cases value with
          | none =>
            simp [H5FD_s3comms_hrb_node_set, he, hlt] at hset
          | some v =>
            simp only [H5FD_s3comms_hrb_node_set, he, if_false, hlt, if_true,
              Prod.mk.injEq, true_and] at hset
            subst hset
            refine ⟨fun n hn => ?_, ?_⟩
            · rcases List.mem_cons.mp hn with h | hn
              · exact h ▸ ⟨rfl, rfl⟩
              · exact hwf n hn
            · exact List.chain'_cons.mpr ⟨hlt, hsort⟩
        · have hlt' : strLt (lowerStr nm) ptr.lowername = false :=
            (Bool.not_eq_true _).mp hlt
          have hpl : strLt ptr.lowername (lowerStr nm) = true :=
            strLt_rev_of_ne he hlt'
          cases hM : nodeSetLoop nm (lowerStr nm) value ptr rest with
          | none =>
            simp [H5FD_s3comms_hrb_node_set, he, hlt, hM] at hset
          | some M =>
            simp only [H5FD_s3comms_hrb_node_set, he, if_false, hlt, hM,
              Bool.false_eq_true, Prod.mk.injEq, true_and] at hset
            subst hset
            have := nodeSetLoop_wf nm (lowerStr nm) value rfl rest ptr M hM
              hwf hsort hpl
            exact ⟨this.1, this.2.1⟩

theorem runSets_wf : ∀ (ops : List (Option String × Option String))
    (L L' : List hrb_node_t), runSets L ops = some L' →
    (∀ n ∈ L, nodeWF n) → sortedNodes L →
    (∀ n ∈ L', nodeWF n) ∧ sortedNodes L'
  | [], L, L', h, hwf, hs => by
      simp only [runSets, Option.some.injEq] at h
      exact h ▸ ⟨hwf, hs⟩
  | (nm, v) :: ops, L, L', h, hwf, hs => by
      cases hset : H5FD_s3comms_hrb_node_set L nm v with
      | mk ok M =>
        cases ok with
        | false => simp [runSets, hset] at h
        | true =>
          have hM := hrb_node_set_wf L nm v M hset hwf hs
          have h' : runSets M ops = some L' := by
            simpa [runSets, hset] using h
          exact runSets_wf ops M L' h' hM.1 hM.2

/-- Claim C3: starting from the empty header list, after any sequence of
successful `hrb_node_set` operations (a) the lowercased names are
pairwise distinct, (b) the nodes are strictly ascending in lowercased
name under the `strcmp` order, and (c) every node's pre-joined `cat`
string equals `name ++ ": " ++ value` byte-for-byte. -/
theorem C3_header_list_invariants (ops : List (Option String × Option String))
    (L : List hrb_node_t) (h : runSets [] ops = some L) :
    (L.map fun n => lowerStr n.name).Pairwise (fun a b => a ≠ b) ∧
    (L.map fun n => lowerStr n.name).Chain' (fun a b => strLt a b = true) ∧
    (∀ n ∈ L, n.cat = n.name ++ ": " ++ n.value) := by
  have hwf := runSets_wf ops [] L h (by simp) (by simp [sortedNodes])
  rcases hwf with ⟨hn, hs⟩
  have hmap : (L.map fun n => lowerStr n.name) = L.map fun n => n.lowername :=
    List.map_congr_left (fun n hn' => ((hn n hn').1).symm)
  have hchain : (L.map fun n => n.lowername).Chain' (fun a b => strLt a b = true) :=
    (List.chain'_map _).mpr hs
  refine ⟨?_, ?_, fun n hn' => (hn n hn').2⟩
  · rw [hmap]
    exact (chain'_pairwise_strLt _ hchain).imp (fun hab => ne_of_strLt hab)
  · rw [hmap]
    exact hchain

/-- Claim C3 witness: inserting `x-amz-date`, `Host`, replacing via the
case-variant `HOST`, inserting `Range`, then removing `x-amz-date`
succeeds and yields a list satisfying all three invariants. -/
theorem C3_witness :
    runSets [] [(some "x-amz-date", some "A"), (some "Host", some "b"),
        (some "HOST", some "c"), (some "Range", some "r"),
        (some "x-amz-date", none)] =
      some [⟨"HOST", "c", "host", "HOST: c"⟩, ⟨"Range", "r", "range", "Range: r"⟩] ∧
    ((([⟨"HOST", "c", "host", "HOST: c"⟩, ⟨"Range", "r", "range", "Range: r"⟩] :
        List hrb_node_t).map fun n => lowerStr n.name).Pairwise (fun a b => a ≠ b) ∧
     (([⟨"HOST", "c", "host", "HOST: c"⟩, ⟨"Range", "r", "range", "Range: r"⟩] :
        List hrb_node_t).map fun n => lowerStr n.name).Chain' (fun a b => strLt a b = true) ∧
     (∀ n ∈ ([⟨"HOST", "c", "host", "HOST: c"⟩, ⟨"Range", "r", "range", "Range: r"⟩] :
        List hrb_node_t), n.cat = n.name ++ ": " ++ n.value)) :=
  ⟨by decide,
   C3_header_list_invariants
     [(some "x-amz-date", some "A"), (some "Host", some "b"),
      (some "HOST", some "c"), (some "Range", some "r"), (some "x-amz-date", none)]
     [⟨"HOST", "c", "host", "HOST: c"⟩, ⟨"Range", "r", "range", "Range: r"⟩]
     (by decide)⟩

theorem nodeSetLoop_none_of_absent (nm low : String) :
    ∀ (rest : List hrb_node_t) (ptr : hrb_node_t),
      (∀ n ∈ rest, n.lowername ≠ low) →
      nodeSetLoop nm low none ptr rest = none
  | [], ptr, _ => rfl
  | next :: rest, ptr, habs => by
      have hne : next.lowername ≠ low := habs next (by simp)
      by_cases h1 : strLt low next.lowername = true
      · simp [nodeSetLoop, h1]
      · have h2 : ¬(low = next.lowername) := fun e => hne e.symm
        simp [nodeSetLoop, h1, h2,
          nodeSetLoop_none_of_absent nm low rest next (fun n hn => habs n (by simp [hn]))]

/-- Claim C7: `hrb_node_set` fails and leaves the list untouched when
the name is NULL, when a removal is attempted on an empty list, and when
a removal names no present node (no node's lowercased key matches). -/
theorem C7_set_failure_no_mutation (L : List hrb_node_t) (nm : String)
    (v : Option String) :
    H5FD_s3comms_hrb_node_set L none v = (false, L) ∧
    H5FD_s3comms_hrb_node_set [] (some nm) none = (false, []) ∧
    ((∀ n ∈ L, n.lowername ≠ lowerStr nm) →
      H5FD_s3comms_hrb_node_set L (some nm) none = (false, L)) := by
  refine ⟨rfl, rfl, fun habs => ?_⟩
  cases L with
  | nil => rfl
  | cons ptr rest =>
    have hne : ¬(lowerStr nm = ptr.lowername) := fun e => (habs ptr (by simp)) e.symm
    by_cases hlt : strLt (lowerStr nm) ptr.lowername = true
    · simp [H5FD_s3comms_hrb_node_set, hne, hlt]
    · simp [H5FD_s3comms_hrb_node_set, hne, hlt,
        nodeSetLoop_none_of_absent nm (lowerStr nm) rest ptr
          (fun n hn => habs n (by simp [hn]))]

/-- Claim C7 witness: with only a `Host` header present, removing
`Range` (name present, value NULL) fails and the one-node list is
returned unchanged; a NULL name and a removal from the empty list fail
likewise. -/
theorem C7_witness :
    (∀ n ∈ ([⟨"Host", "h", "host", "Host: h"⟩] : List hrb_node_t),
      n.lowername ≠ lowerStr "Range") ∧
    H5FD_s3comms_hrb_node_set [⟨"Host", "h", "host", "Host: h"⟩]
      (some "Range") none = (false, [⟨"Host", "h", "host", "Host: h"⟩]) :=
  ⟨by decide,
   (C7_set_failure_no_mutation [⟨"Host", "h", "host", "Host: h"⟩] "Range"
     (some "x")).2.2 (by decide)⟩

end S3Comms
